import Mathlib

/-!
Shallow embedding of the TDS token-stream decoder of `token.go`
(`wang-xuemin/go-mssqldb`).

Byte streams are `List Nat` (each element one byte, 0..255); Go machine
integers are `Nat` with an explicit `% 2 ^ 32` wherever Go's `uint32`
arithmetic can wrap.  Parsers return `Option`: `none` models an aborted
response, i.e. a `badStreamPanic` or a Go runtime panic, both of which are
recovered by `processSingleResponse` and surfaced as an error value on the
token channel.  Helpers of the repository that are outside the provided
source file (`readBVarChar`, `ucs22str`, `readTypeInfo`, ...) are modelled
from the spec and marked so in their doc comments.
-/

namespace GoMssql

/-- A wire byte stream. -/
abbrev Bytes := List Nat

/-- Read one byte (`tdsBuffer.byte`); `none` models the panic past the end
of the stream. -/
def readU8 : Bytes → Option (Nat × Bytes)
  | [] => none
  | b :: s => some (b, s)

/-- Read a little-endian `uint16` (`tdsBuffer.uint16`). -/
def readU16 : Bytes → Option (Nat × Bytes)
  | b0 :: b1 :: s => some (b0 + 256 * b1, s)
  | _ => none

/-- Read a little-endian `uint32` (`tdsBuffer.uint32`, also `int32` whose
sign never matters for the claims). -/
def readU32 : Bytes → Option (Nat × Bytes)
  | b0 :: b1 :: b2 :: b3 :: s =>
    some (b0 + 256 * b1 + 65536 * b2 + 16777216 * b3, s)
  | _ => none

/-- `ReadFull` into a buffer of `n` bytes; `none` models the abort when the
stream is exhausted first. -/
def readN (n : Nat) (s : Bytes) : Option (Bytes × Bytes) :=
  if n ≤ s.length then some (s.take n, s.drop n) else none

/-- Modelled from the spec: UCS-2 LE decoding where the Go code ignores the
decoder's error return; bytes are paired into 16-bit code units (a dangling
odd byte is dropped). -/
def ucs2units : Bytes → List Nat
  | lo :: hi :: rest => (lo + 256 * hi) :: ucs2units rest
  | _ => []

/-- Modelled from the spec: `ucs22str` (defined outside the provided source)
decodes UCS-2 LE bytes, reporting an error for a malformed (odd-length)
buffer; we keep the decoded 16-bit code units. -/
def ucs22str (s : Bytes) : Option (List Nat) :=
  if s.length % 2 = 0 then some (ucs2units s) else none

/-! ## CEK table (`readCEKTable`, `readCekTableEntry`) -/

/-- One CEK value of a CEK-table entry (`encryptionKeyInfo`). -/
structure encryptionKeyInfo where
  encryptedKey : Bytes
  databaseID : Nat
  cekID : Nat
  cekVersion : Nat
  cekMdVersion : Bytes
  keyPath : List Nat
  keyStoreName : List Nat
  algorithmName : List Nat
deriving DecidableEq

/-- One entry of the CEK table (`cekTableEntry`). -/
structure cekTableEntry where
  databaseID : Nat
  keyId : Nat
  keyVersion : Nat
  mdVersion : Bytes
  valueCount : Nat
  cekValues : List encryptionKeyInfo
deriving DecidableEq

/-- The per-value loop of `readCekTableEntry`: every parsed CEK value
carries the entry-level database id, cek id and cek version. -/
def readCekValues (dbid cekid ver : Nat) (md : Bytes) :
    Nat → Bytes → Option (List encryptionKeyInfo × Bytes)
  | 0, s => some ([], s)
  | n + 1, s => do
    let (ekLen, s1) ← readU16 s
    let (ek, s2) ← readN ekLen s1
    let (ksLen, s3) ← readU8 s2
    let (ksu, s4) ← readN (2 * ksLen) s3
    let (kpLen, s5) ← readU16 s4
    let (kpu, s6) ← readN (2 * kpLen) s5
    let (algLen, s7) ← readU8 s6
    let (algu, s8) ← readN (2 * algLen) s7
    let (rest, s9) ← readCekValues dbid cekid ver md n s8
    some (({ encryptedKey := ek, databaseID := dbid, cekID := cekid,
             cekVersion := ver, cekMdVersion := md,
             keyPath := ucs2units kpu, keyStoreName := ucs2units ksu,
             algorithmName := ucs2units algu } : encryptionKeyInfo) :: rest, s9)

/-- `readCekTableEntry`. -/
def readCekTableEntry (s : Bytes) : Option (cekTableEntry × Bytes) := do
  let (dbid, s1) ← readU32 s
  let (cekid, s2) ← readU32 s1
  let (ver, s3) ← readU32 s2
  let (md, s4) ← readN 8 s3
  let (cnt, s5) ← readU8 s4
  let (vals, s6) ← readCekValues dbid cekid ver md cnt s5
  some (({ databaseID := dbid, keyId := cekid, keyVersion := ver,
           mdVersion := md, valueCount := cnt, cekValues := vals } :
           cekTableEntry), s6)

/-! ## Crypto metadata (`parseCryptoMetadata`) -/

/-- The fields of `cryptoMetadata` the claims are about; the nested
plaintext `typeInfo` is abstracted (see the `rti` parameter of
`parseCryptoMetadata`).  `entry` is `none` for the nil pointer. -/
structure cryptoMetadata where
  entry : Option cekTableEntry
  ordinal : Nat
  algorithmId : Nat
  algorithmName : Option (List Nat)
  encType : Nat
  normRuleVer : Nat
deriving DecidableEq

/-- The custom-algorithm-name branch of `parseCryptoMetadata`: when the
algorithm id is 0 (`cipherAlgCustom`), a u8 character count and that many
UCS-2 characters follow. -/
def parseAlgName (algorithmId : Nat) (s : Bytes) :
    Option (Option (List Nat) × Bytes) :=
  if algorithmId = 0 then do
    let (nameLen, t1) ← readU8 s
    let (nameU, t2) ← readN (2 * nameLen) t1
    some ((some (ucs2units nameU) : Option (List Nat)), t2)
  else some ((none : Option (List Nat)), s)

/-- The entry resolution at the end of `parseCryptoMetadata`: with no table
the entry pointer stays nil; with a table, the source checks
`int(ordinal) > len(cekTable.entries)-1` (here the same comparison over
`Int`, exactly as Go evaluates it) and panics when it holds, else takes the
address of `cekTable.entries[ordinal]`. -/
def resolveCekEntry (tbl : Option (List cekTableEntry)) (ordinal : Nat) :
    Option (Option cekTableEntry) :=
  match tbl with
  | none => some (none : Option cekTableEntry)
  | some entries =>
    if (entries.length : Int) - 1 < (ordinal : Int) then none
    else some (entries[ordinal]?)

/-- `parseCryptoMetadata`.  The CEK table is `some entries` when present.
`rti` abstracts `readTypeInfo` (defined outside the provided source): given
the type id it consumes the type-dependent bytes.  The inlined
`getBaseTypeInfo(r, false)` is the `readU32`/`readU8` pair. -/
def parseCryptoMetadata (tbl : Option (List cekTableEntry))
    (rti : Nat → Bytes → Option Bytes) (s : Bytes) :
    Option (cryptoMetadata × Bytes) := do
  let (ordinal, s1) ← match tbl with
    | some _ => readU16 s
    | none => some (0, s)
  let (_userType, s2) ← readU32 s1
  let (typeId, s3) ← readU8 s2
  let s4 ← rti typeId s3
  let (algorithmId, s5) ← readU8 s4
  let (algName, s6) ← parseAlgName algorithmId s5
  let (encType, s7) ← readU8 s6
  let (normRuleVer, s8) ← readU8 s7
  let entry ← resolveCekEntry tbl ordinal
  some (({ entry := entry, ordinal := ordinal, algorithmId := algorithmId,
           algorithmName := algName, encType := encType,
           normRuleVer := normRuleVer } : cryptoMetadata), s8)

/-! ## CEK value selection of `decryptColumn` -/

/-- The CEK-value selection performed by `decryptColumn` (token.go:844-890):
line 846 indexes `cryptoMeta.entry.cekValues[cryptoMeta.ordinal]` and takes
the AEAD algorithm version from that value (line 847), while line 855 hands
`cryptoMeta.entry.cekValues[0].encryptedKey` to `LoadCEKV` for parsing and
certificate verification.  The cryptographic operations themselves live in
external libraries; this returns the pair (encrypted-CEK blob given to
`LoadCEKV`, `algVer` given to the AEAD scheme).  `none` models the
index-out-of-range or nil-entry runtime panic. -/
def decryptColumnSelect (cm : cryptoMetadata) : Option (Bytes × Nat) := do
  let entry ← cm.entry
  let cekValue ← entry.cekValues[cm.ordinal]?
  let v0 ← entry.cekValues[0]?
  some (v0.encryptedKey, cekValue.cekVersion)

/-! ## FEDAUTHINFO (`parseFedAuthInfo`) -/

/-- Outcome of `parseFedAuthInfo`: a parsed STS URL / server SPN pair,
a `badStreamPanic` abort, or a Go runtime slice-bounds panic from the
`data[dataOffset-offset : dataOffset-offset+dataLength]` expression. -/
inductive FedOutcome where
  | ok (stsurl spn : List Nat)
  | badStream
  | sliceOOR
deriving DecidableEq

/-- The option-header loop of `parseFedAuthInfo`: `count` records of one id
byte, a `uint32` data length and a `uint32` data offset. -/
def readFAIOpts : Nat → Bytes → Option (List (Nat × Nat × Nat) × Bytes)
  | 0, s => some ([], s)
  | n + 1, s => do
    let (fedAuthInfoID, s1) ← readU8 s
    let (dataLength, s2) ← readU32 s1
    let (dataOffset, s3) ← readU32 s2
    let (rest, s4) ← readFAIOpts n s3
    some ((fedAuthInfoID, dataLength, dataOffset) :: rest, s4)

/-- The per-option validation and extraction loop of `parseFedAuthInfo`.
All arithmetic on `size`, `offset`, lengths and offsets is Go `uint32`
arithmetic (inputs are `< 2 ^ 32`; sums are reduced `% 2 ^ 32`). -/
def processFAIOpts (size offset : Nat) (data : Bytes) :
    List (Nat × Nat × Nat) → List Nat → List Nat → FedOutcome
  | [], stsurl, spn => FedOutcome.ok stsurl spn
  | (id, len, off) :: rest, stsurl, spn =>
    if off < offset then FedOutcome.badStream
    else if size < (off + len) % 2 ^ 32 then FedOutcome.badStream
    else
      -- Go evaluates the slice bounds in uint32: lo = off-offset (no wrap,
      -- off ≥ offset here), hi = (off-offset)+len which can wrap.
      let lo := off - offset
      let hi := (off - offset + len) % 2 ^ 32
      if lo ≤ hi ∧ hi ≤ data.length then
        let optData := (data.drop lo).take (hi - lo)
        match id with
        | 1 =>
          match ucs22str optData with
          | none => FedOutcome.badStream
          | some u => processFAIOpts size offset data rest u spn
        | 2 =>
          match ucs22str optData with
          | none => FedOutcome.badStream
          | some u => processFAIOpts size offset data rest stsurl u
        | _ => FedOutcome.badStream
      else FedOutcome.sliceOOR

/-- `parseFedAuthInfo` (token.go:439-499): `uint32` size, `uint32` count,
`count` option headers (tracking `offset := 4 + 9*count` in `uint32`), a
`make`/`ReadFull` of `size - offset` bytes (`uint32` subtraction — it wraps
when `size < offset`, which the source never checks), then the per-option
validation and extraction. -/
def parseFedAuthInfo (s : Bytes) : FedOutcome :=
  match readU32 s with
  | none => FedOutcome.badStream
  | some (size, s1) =>
    match readU32 s1 with
    | none => FedOutcome.badStream
    | some (count, s2) =>
      match readFAIOpts count s2 with
      | none => FedOutcome.badStream
      | some (opts, s3) =>
        let offset := (4 + 9 * count) % 2 ^ 32
        match readN ((size + 2 ^ 32 - offset) % 2 ^ 32) s3 with
        | none => FedOutcome.badStream
        | some (data, _) => processFAIOpts size offset data opts [] []

/-! ## FEATUREEXTACK (`parseFeatureExtAck`) -/

/-- Modelled from the spec: the feature ids of `parseFeatureExtAck` are
constants defined outside the provided source; MS-TDS fixes
`featExtFEDAUTH = 2`, `featExtCOLUMNENCRYPTION = 4`,
`featExtTERMINATOR = 255`. -/
def featExtFEDAUTH : Nat := 2

/-- Modelled from the spec: see `featExtFEDAUTH`. -/
def featExtCOLUMNENCRYPTION : Nat := 4

/-- Modelled from the spec: see `featExtFEDAUTH`. -/
def featExtTERMINATOR : Nat := 255

/-- The feature loop of `parseFeatureExtAck` (token.go:536-579), returning
the stream left after the terminator byte.  `length` is a Go `uint32`:
`length--` and `length -= uint32(enclaveLength)` wrap.  The final
`io.CopyN(ioutil.Discard, r, int64(length))` discards its error, so the
skip consumes at most what remains.  `fuel` bounds the recursion; every
iteration consumes at least the feature-id byte, so the entry point's
`s.length + 1` is never exhausted. -/
def parseFeatureExtAckAux : Nat → Bytes → Option Bytes
  | 0, _ => none
  | fuel + 1, s => do
    let (feature, s1) ← readU8 s
    if feature = featExtTERMINATOR then some s1
    else do
      let (length, s2) ← readU32 s1
      if feature = featExtFEDAUTH then
        if 32 ≤ length then do
          let (_, s3) ← readN 32 s2
          if 32 ≤ length - 32 then do
            let (_, s4) ← readN 32 s3
            let rem := length - 32 - 32
            parseFeatureExtAckAux fuel (s4.drop (min rem s4.length))
          else
            let rem := length - 32
            parseFeatureExtAckAux fuel (s3.drop (min rem s3.length))
        else parseFeatureExtAckAux fuel (s2.drop (min length s2.length))
      else if feature = featExtCOLUMNENCRYPTION then do
        let (_version, s3) ← readU8 s2
        let length1 := (length + (2 ^ 32 - 1)) % 2 ^ 32
        if 0 < length1 then do
          let (enclaveLength, s4) ← readU8 s3
          let (_, s5) ← readN enclaveLength s4
          let length2 := (length1 + (2 ^ 32 - enclaveLength)) % 2 ^ 32
          parseFeatureExtAckAux fuel (s5.drop (min length2 s5.length))
        else parseFeatureExtAckAux fuel (s3.drop (min length1 s3.length))
      else parseFeatureExtAckAux fuel (s2.drop (min length s2.length))

/-- `parseFeatureExtAck`, with the fuel instantiated so that it never runs
out on any input. -/
def parseFeatureExtAck (s : Bytes) : Option Bytes :=
  parseFeatureExtAckAux (s.length + 1) s

/-! ## ENVCHANGE (`processEnvChg`) -/

/-- The observable session state touched by `processEnvChg`: `database`,
`tranid`, `partner`, `routedServer`, `routedPort` are `tdsSession` fields;
`bufSize` is the packet buffer size set through `ResizeBuffer` (an absolute
size per the spec's PacketReader interface).  Strings are kept as decoded
16-bit code units. -/
structure sessState where
  database : List Nat
  tranid : Nat
  partner : List Nat
  routedServer : List Nat
  routedPort : Nat
  bufSize : Int
deriving DecidableEq

/-- Modelled from the spec: `readBVarChar` (defined outside the provided
source) reads a 1-byte character count followed by that many UCS-2
characters, decoded. -/
def readBVarChar (s : Bytes) : Option (List Nat × Bytes) := do
  let (n, s1) ← readU8 s
  let (u, s2) ← readN (2 * n) s1
  some (ucs2units u, s2)

/-- Modelled from the spec: `readBVarByte` (defined outside the provided
source) reads a 1-byte length followed by that many raw bytes. -/
def readBVarByte (s : Bytes) : Option (Bytes × Bytes) := do
  let (n, s1) ← readU8 s
  readN n s1

/-- Modelled from the spec: `readUsVarChar` (defined outside the provided
source) reads a 2-byte character count followed by that many UCS-2
characters, decoded. -/
def readUsVarChar (s : Bytes) : Option (List Nat × Bytes) := do
  let (n, s1) ← readU16 s
  let (u, s2) ← readN (2 * n) s1
  some (ucs2units u, s2)

/-- Little-endian value of a byte list (`binary.LittleEndian.Uint64`). -/
def leVal : Bytes → Nat
  | [] => 0
  | b :: r => b + 256 * leVal r

/-- Is a code unit an ASCII digit? -/
def isDigit (c : Nat) : Bool := 48 ≤ c && c ≤ 57

/-- Accumulate a decimal value over code units; `none` on a non-digit. -/
def digitsVal : List Nat → Nat → Option Nat
  | [], acc => some acc
  | c :: r, acc =>
    if isDigit c then digitsVal r (acc * 10 + (c - 48)) else none

/-- Modelled from the spec: Go's `strconv.Atoi` on the decoded string — an
optional sign followed by at least one ASCII digit and nothing else
(overflow of Go's `int` is not modelled). -/
def goAtoi (u : List Nat) : Option Int :=
  match u with
  | [] => none
  | c :: r =>
    if c = 43 then
      if r.isEmpty then none else (digitsVal r 0).map (fun n => (n : Int))
    else if c = 45 then
      if r.isEmpty then none else (digitsVal r 0).map (fun n => -(n : Int))
    else (digitsVal (c :: r) 0).map (fun n => (n : Int))

/-- The session write performed by one ENVCHANGE sub-record. -/
inductive EnvRec where
  | setDatabase (v : List Nat)
  | discardRec
  | setPacketSize (n : Int)
  | setBeginTran (v : Nat)
  | clearTran
  | setPartner (v : List Nat)
  | setRouting (server : List Nat) (port : Nat)
  | unknownRec
deriving DecidableEq

/-- One sub-record of `processEnvChg` (token.go:132-388): the reads of the
matching `switch` arm in source order, reduced to the session write it
performs.  `unknownRec` is the `default` arm (log a warning and stop).
A parse failure (`none`) models `badStreamPanic`; the source may have
partially mutated the session before such a panic, but the panic aborts the
whole response, so only fully parsed streams are observable. -/
def parseEnvRecord (s : Bytes) : Option (EnvRec × Bytes) := do
  let (envtype, s0) ← readU8 s
  match envtype with
  | 1 => do  -- envTypDatabase
    let (newv, s1) ← readBVarChar s0
    let (_, s2) ← readBVarChar s1
    some (EnvRec.setDatabase newv, s2)
  | 4 => do  -- envTypPacketSize
    let (packetsize, s1) ← readBVarChar s0
    let (_, s2) ← readBVarChar s1
    match goAtoi packetsize with
    | none => none
    | some n => some (EnvRec.setPacketSize n, s2)
  | 7 => do  -- envSqlCollation
    let (collationSize, s1) ← readU8 s0
    if collationSize = 5 then do
      let (_info, s2) ← readU32 s1
      let (_sortID, s3) ← readU8 s2
      let (_, s4) ← readBVarChar s3
      some (EnvRec.discardRec, s4)
    else none
  | 8 => do  -- envTypBeginTran
    let (tranid, s1) ← readBVarByte s0
    if tranid.length = 8 then do
      let (_, s2) ← readBVarByte s1
      some (EnvRec.setBeginTran (leVal tranid), s2)
    else none
  | 9 | 10 => do  -- envTypCommitTran, envTypRollbackTran
    let (_, s1) ← readBVarByte s0
    let (_, s2) ← readBVarByte s1
    some (EnvRec.clearTran, s2)
  | 13 => do  -- envDatabaseMirrorPartner
    let (newv, s1) ← readBVarChar s0
    let (_, s2) ← readBVarChar s1
    some (EnvRec.setPartner newv, s2)
  | 20 => do  -- envRouting
    let (_valueLength, s1) ← readU16 s0
    let (protocol, s2) ← readU8 s1
    if protocol = 0 then do
      let (newPort, s3) ← readU16 s2
      let (newServer, s4) ← readUsVarChar s3
      let (_, s5) ← readU16 s4
      some (EnvRec.setRouting newServer newPort, s5)
    else none
  | 2 | 3 | 5 | 6 | 11 | 12 | 15 | 16 | 17 | 18 | 19 => do
    -- language, charset, sort id/flags, DTC/transaction records,
    -- reset-conn ack, started instance name: two B_VARCHARs, discarded
    let (_, s1) ← readBVarChar s0
    let (_, s2) ← readBVarChar s1
    some (EnvRec.discardRec, s2)
  | _ => some (EnvRec.unknownRec, s0)

/-- Apply one ENVCHANGE sub-record's write to the session. -/
def applyEnvRec : EnvRec → sessState → sessState
  | EnvRec.setDatabase v, σ => { σ with database := v }
  | EnvRec.discardRec, σ => σ
  | EnvRec.setPacketSize n, σ => { σ with bufSize := n }
  | EnvRec.setBeginTran v, σ => { σ with tranid := v }
  | EnvRec.clearTran, σ => { σ with tranid := 0 }
  | EnvRec.setPartner v, σ => { σ with partner := v }
  | EnvRec.setRouting server port, σ =>
    { σ with routedServer := server, routedPort := port }
  | EnvRec.unknownRec, σ => σ

/-- The `processEnvChg` record loop over the size-limited body, threading
the session state.  An empty body is the clean `io.EOF` return; an unknown
record type stops the loop.  `fuel` bounds the recursion; every record
consumes at least its type byte, so `processEnvChg` supplies enough. -/
def envChgLoop : Nat → Bytes → sessState → Option sessState
  | 0, _, _ => none
  | _ + 1, [], σ => some σ
  | fuel + 1, b :: s, σ =>
    match parseEnvRecord (b :: s) with
    | none => none
    | some (EnvRec.unknownRec, _) => some σ
    | some (r, rest) => envChgLoop fuel rest (applyEnvRec r σ)

/-- `processEnvChg` (token.go:132-388): read the 2-byte total size, then
decode sub-records from the size-limited window (`io.LimitedReader`),
mutating the session. -/
def processEnvChg (s : Bytes) (σ : sessState) : Option sessState :=
  match readU16 s with
  | none => none
  | some (size, rest) => envChgLoop (size + 1) (rest.take size) σ

/-! Machinery for the ENVCHANGE idempotence proof: each accepted stream
factors into a state-independent delta of absolute values. -/

/-- The absolute session writes of an ENVCHANGE stream, one optional new
value per observable field. -/
structure EnvDelta where
  database : Option (List Nat)
  tranid : Option Nat
  partner : Option (List Nat)
  routedServer : Option (List Nat)
  routedPort : Option Nat
  bufSize : Option Int
deriving DecidableEq

/-- The delta that writes nothing. -/
def emptyDelta : EnvDelta :=
  { database := none, tranid := none, partner := none, routedServer := none,
    routedPort := none, bufSize := none }

/-- Right-biased override of one optional field. -/
def ovr {α : Type} (a b : Option α) : Option α :=
  match b with
  | some v => some v
  | none => a

/-- Apply a later delta on top of an earlier one (the later one wins). -/
def mergeDelta (d1 d2 : EnvDelta) : EnvDelta :=
  { database := ovr d1.database d2.database,
    tranid := ovr d1.tranid d2.tranid,
    partner := ovr d1.partner d2.partner,
    routedServer := ovr d1.routedServer d2.routedServer,
    routedPort := ovr d1.routedPort d2.routedPort,
    bufSize := ovr d1.bufSize d2.bufSize }

/-- Apply a delta to a session state. -/
def applyDelta (d : EnvDelta) (σ : sessState) : sessState :=
  { database := d.database.getD σ.database,
    tranid := d.tranid.getD σ.tranid,
    partner := d.partner.getD σ.partner,
    routedServer := d.routedServer.getD σ.routedServer,
    routedPort := d.routedPort.getD σ.routedPort,
    bufSize := d.bufSize.getD σ.bufSize }

/-- The delta of a single sub-record. -/
def recDelta : EnvRec → EnvDelta
  | EnvRec.setDatabase v => { emptyDelta with database := some v }
  | EnvRec.discardRec => emptyDelta
  | EnvRec.setPacketSize n => { emptyDelta with bufSize := some n }
  | EnvRec.setBeginTran v => { emptyDelta with tranid := some v }
  | EnvRec.clearTran => { emptyDelta with tranid := some 0 }
  | EnvRec.setPartner v => { emptyDelta with partner := some v }
  | EnvRec.setRouting server port =>
    { emptyDelta with routedServer := some server, routedPort := some port }
  | EnvRec.unknownRec => emptyDelta

/-- The record loop as a state-independent delta computation, structurally
parallel to `envChgLoop`. -/
def envChgDelta : Nat → Bytes → Option EnvDelta
  | 0, _ => none
  | _ + 1, [] => some emptyDelta
  | fuel + 1, b :: s =>
    match parseEnvRecord (b :: s) with
    | none => none
    | some (EnvRec.unknownRec, _) => some emptyDelta
    | some (r, rest) =>
      (envChgDelta fuel rest).map (fun d => mergeDelta (recDelta r) d)

/-! ## ROW and NBCROW (`parseRow`, `parseNbcRow`) -/

/-- A decoded cell: `none` is the SQL null the cell reader produces for a
null encoding, `some b` a non-null value kept as bytes. -/
abbrev Cell := Option (List Nat)

/-- A column as the row decoders see it: `enc` is
`column.isEncrypted()`, `reader` the cell reader `column.ti.Reader`
produced by `readTypeInfo` (defined outside the provided source), consuming
cell bytes from the stream; an outer `none` is a reader panic. -/
structure colM where
  enc : Bool
  reader : Bytes → Option (Cell × Bytes)

/-- The type of the decryption pipeline abstraction: given the column (for
its crypto metadata) and the non-null ciphertext, `decryptColumn` followed
by the plaintext TypeInfo's reader yields the decoded cell; `none` is any
panic inside `decryptColumn` (missing key, certificate mismatch,
out-of-range CEK value, AEAD failure). -/
abbrev DecryptFun := colM → List Nat → Option Cell

/-- The body of `parseRow`'s per-column loop (token.go:826-842): read the
cell; a nil cell is stored and the loop continues (the encryption check is
never reached); otherwise an encrypted column under Always Encrypted goes
through the decryption pipeline. -/
def rowStep (ae : Bool) (dec : DecryptFun) (c : colM) (s : Bytes) :
    Option (Cell × Bytes) :=
  match c.reader s with
  | none => none
  | some (columnContent, s1) =>
    match columnContent with
    | none => some (none, s1)
    | some b =>
      if c.enc && ae then
        match dec c b with
        | none => none
        | some cell => some (cell, s1)
      else some (some b, s1)

/-- The body of `parseNbcRow`'s per-column decode for an unset bitmap bit
(token.go:902-909): unlike `rowStep` there is no nil short-circuit, so a
nil `columnContent` of an encrypted column reaches
`decryptColumn(col, s, nil)` whose `columnContent.([]byte)` assertion
panics. -/
def nbcStep (ae : Bool) (dec : DecryptFun) (c : colM) (s : Bytes) :
    Option (Cell × Bytes) :=
  match c.reader s with
  | none => none
  | some (columnContent, s1) =>
    if c.enc && ae then
      match columnContent with
      | none => none
      | some b =>
        match dec c b with
        | none => none
        | some cell => some (cell, s1)
    else some (columnContent, s1)

/-- `parseRow` (token.go:826-842): decode one cell per column in order. -/
def parseRow (ae : Bool) (dec : DecryptFun) :
    List colM → Bytes → Option (List Cell × Bytes)
  | [], s => some ([], s)
  | c :: cs, s => do
    let (cell, s1) ← rowStep ae dec c s
    let (row, s2) ← parseRow ae dec cs s1
    some (cell :: row, s2)

/-- Bit `i` of the NBCROW null bitmap:
`pres[i/8] & (1 << (i % 8)) != 0`. -/
def nbcBit (bm : Bytes) (i : Nat) : Bool :=
  (bm.getD (i / 8) 0) &&& (1 <<< (i % 8)) != 0

/-- The per-column loop of `parseNbcRow`: bit `i` set stores null and
consumes nothing for that column; otherwise decode as `nbcStep`. -/
def nbcLoop (ae : Bool) (dec : DecryptFun) (bm : Bytes) :
    Nat → List colM → Bytes → Option (List Cell × Bytes)
  | _, [], s => some ([], s)
  | i, c :: cs, s =>
    if nbcBit bm i then do
      let (row, s2) ← nbcLoop ae dec bm (i + 1) cs s
      some ((none : Cell) :: row, s2)
    else do
      let (cell, s1) ← nbcStep ae dec c s
      let (row, s2) ← nbcLoop ae dec bm (i + 1) cs s1
      some (cell :: row, s2)

/-- `parseNbcRow` (token.go:893-911): read `(columns+7)/8` bitmap bytes,
then decode the columns against the bitmap. -/
def parseNbcRow (ae : Bool) (dec : DecryptFun) (cols : List colM)
    (s : Bytes) : Option (List Cell × Bytes) :=
  match readN ((cols.length + 7) / 8) s with
  | none => none
  | some (bm, s1) => nbcLoop ae dec bm 0 cols s1

/-! ## The token dispatch loop (`processSingleResponse`) -/

/-- done-status bits (token.go:49-57). -/
def doneMore : Nat := 1

/-- See `doneMore`. -/
def doneSrvError : Nat := 256

/-- Abstract wire tokens for the `processSingleResponse` dispatch loop;
each constructor stands for one token read off the stream.  `colmeta n`
carries the length of the column list `parseColMetadata72` returned,
`done`/`doneinproc` the Status word, `envchg ok` whether `processEnvChg`
accepted its record, `retval scanErr` whether assigning the output
parameter failed, and `badTok` a token whose body parser panicked. -/
inductive WireTok where
  | sspi
  | fedauth
  | retstatus
  | loginack
  | featureextack
  | order
  | doneinproc (status : Nat)
  | done (status : Nat)
  | colmeta (n : Nat)
  | rowTok
  | nbcrowTok
  | envchg (ok : Bool)
  | errTok
  | infoTok
  | retval (scanErr : Bool)
  | unknownTok
  | badTok
deriving DecidableEq

/-- Values the stream reader sends on the token channel.  `rowE n` is a row
of `n` cells (`processSingleResponse` allocates the emitted row with a
`make` of length `len(columns)`, so its length is the current column
count); `errE` is an error value, including the recovered parse panic. -/
inductive Emit where
  | sspiE
  | fedauthE
  | retstatusE
  | loginackE
  | featureextackE
  | orderE
  | doneinprocE (status : Nat)
  | doneE (status : Nat)
  | colmetaE (n : Nat)
  | rowE (n : Nat)
  | errE
deriving DecidableEq

/-- The dispatch loop of `processSingleResponse` (token.go:993-1087) over
abstract tokens, tracking the current column count `n` (`var columns
[]columnStruct` starts nil, hence `processSingleResponse` is entered with
`0`).  Exhausting the token list models the `buf.byte()` panic at the end
of the stream, recovered into an error emission.  SSPI and FEDAUTHINFO
emit and return; DONE/DONEPROC with the server-error bit emits an error
value and returns, otherwise emits and returns when the MORE bit is clear;
ERROR and INFO tokens emit nothing; a RETURNVALUE scan failure emits an
error value and continues. -/
def processSingleResponse : List WireTok → Nat → List Emit
  | [], _ => [Emit.errE]
  | t :: rest, n =>
    match t with
    | WireTok.sspi => [Emit.sspiE]
    | WireTok.fedauth => [Emit.fedauthE]
    | WireTok.retstatus => Emit.retstatusE :: processSingleResponse rest n
    | WireTok.loginack => Emit.loginackE :: processSingleResponse rest n
    | WireTok.featureextack =>
      Emit.featureextackE :: processSingleResponse rest n
    | WireTok.order => Emit.orderE :: processSingleResponse rest n
    | WireTok.doneinproc st =>
      Emit.doneinprocE st :: processSingleResponse rest n
    | WireTok.done st =>
      if st &&& doneSrvError ≠ 0 then [Emit.errE]
      else
        Emit.doneE st ::
          (if st &&& doneMore = 0 then [] else processSingleResponse rest n)
    | WireTok.colmeta m => Emit.colmetaE m :: processSingleResponse rest m
    | WireTok.rowTok => Emit.rowE n :: processSingleResponse rest n
    | WireTok.nbcrowTok => Emit.rowE n :: processSingleResponse rest n
    | WireTok.envchg ok =>
      if ok then processSingleResponse rest n else [Emit.errE]
    | WireTok.errTok => processSingleResponse rest n
    | WireTok.infoTok => processSingleResponse rest n
    | WireTok.retval scanErr =>
      if scanErr then Emit.errE :: processSingleResponse rest n
      else processSingleResponse rest n
    | WireTok.unknownTok => [Emit.errE]
    | WireTok.badTok => [Emit.errE]

/-- Does this emission clear the MORE bit of a DONE? -/
def isDoneClearE : Emit → Bool
  | Emit.doneE st => st &&& doneMore == 0
  | _ => false

/-- May this emission legally be the last of a response: a `Done`, an
`SspiMsg`, a `FedAuthInfo` or an error value. -/
def isTerminalE : Emit → Bool
  | Emit.doneE _ => true
  | Emit.sspiE => true
  | Emit.fedauthE => true
  | Emit.errE => true
  | _ => false

/-- No DONE with a clear MORE bit occurs before the last emission. -/
def noEarlyDoneClear : List Emit → Bool
  | [] => true
  | [_] => true
  | e :: rest => !isDoneClearE e && noEarlyDoneClear rest

/-- The last emission satisfies `isTerminalE`. -/
def lastTerminal : List Emit → Bool
  | [] => false
  | [e] => isTerminalE e
  | _ :: rest => lastTerminal rest

/-! ## Consumer side (`nextToken`) -/

/-- A value buffered on the token channel: an ordinary token or an error
value (distinguished by `tok.(error)` in the source); payloads are
abstracted to `Nat`. -/
inductive ChanItem where
  | tokItem (v : Nat)
  | errItem (e : Nat)
deriving DecidableEq

/-- What one `nextToken` call returns. -/
inductive NextTokenRes where
  | tokenRes (v : Nat)
  | errRes (e : Nat)
  | endOfStream
  | cancelPath
  | blocked
deriving DecidableEq

/-- `nextToken` (token.go:1148-1208), modelled at one decision instant
against a snapshot of the token channel: `q` holds the buffered values,
`closed` says whether the reader has closed the channel, `ctxDone` whether
the cancellation context has fired.  The first `select` (the one with
`default`) receives from the channel whenever a value is buffered or the
channel is closed, so the cancellation signal is only consulted in the
second `select`, reached when the channel is empty and open.  The body of
the cancellation branch (attention, confirmation drain) is collapsed into
`cancelPath`; an empty open channel with no cancellation waits for the
reader (`blocked`). -/
def nextToken (q : List ChanItem) (closed ctxDone : Bool) : NextTokenRes :=
  match q with
  | item :: _ =>
    match item with
    | ChanItem.errItem e => NextTokenRes.errRes e
    | ChanItem.tokItem v => NextTokenRes.tokenRes v
  | [] =>
    if closed then NextTokenRes.endOfStream
    else if ctxDone then NextTokenRes.cancelPath
    else NextTokenRes.blocked

/-! ## Concrete instances used by counterexamples and witnesses -/

/-- A CEK value for the C1 counterexample. -/
def v0Cex : encryptionKeyInfo :=
  { encryptedKey := [1, 2, 3], databaseID := 1, cekID := 2, cekVersion := 3,
    cekMdVersion := [0, 0, 0, 0, 0, 0, 0, 0], keyPath := [],
    keyStoreName := [], algorithmName := [] }

/-- A CEK-table entry holding exactly one CEK value. -/
def entryCex : cekTableEntry :=
  { databaseID := 1, keyId := 2, keyVersion := 3,
    mdVersion := [0, 0, 0, 0, 0, 0, 0, 0], valueCount := 1,
    cekValues := [v0Cex] }

/-- Crypto metadata whose CEK-table ordinal is 1 while its entry has a
single CEK value — producible on the wire by a two-entry CEK table whose
second entry has one value, with the column's ordinal = 1. -/
def cmCex : cryptoMetadata :=
  { entry := some entryCex, ordinal := 1, algorithmId := 1,
    algorithmName := none, encType := 2, normRuleVer := 1 }

/-- An in-bounds companion for the C1 witness: ordinal 0 on the same
entry. -/
def cmW : cryptoMetadata :=
  { entry := some entryCex, ordinal := 0, algorithmId := 1,
    algorithmName := none, encType := 2, normRuleVer := 1 }

/-- An encrypted column whose cell reader yields a null cell without
consuming bytes (a nullable encrypted column sending a null encoding). -/
def colCex : colM :=
  { enc := true, reader := fun s => some ((none : Cell), s) }

/-- A plaintext column whose cell reader consumes one byte. -/
def colPlain : colM :=
  { enc := false,
    reader := fun s =>
      match s with
      | [] => none
      | b :: r => some (some [b], r) }

/-- An arbitrary concrete decryption pipeline. -/
def decCex : DecryptFun := fun _ _ => some (some [7])

/-- A second, different decryption pipeline (used to show results do not
depend on it). -/
def decCex2 : DecryptFun := fun _ _ => none

/-- ENVCHANGE stream for the C7 witness: size 5, one database record
setting the name to the single code unit 100, empty old value. -/
def envW : Bytes := [5, 0, 1, 1, 100, 0, 0]

/-- An initial session state. -/
def sess0 : sessState :=
  { database := [], tranid := 0, partner := [], routedServer := [],
    routedPort := 0, bufSize := 0 }

/-- The session state after `envW`. -/
def sess1 : sessState :=
  { database := [100], tranid := 0, partner := [], routedServer := [],
    routedPort := 0, bufSize := 0 }

/-- A CEK value as `readCekTableEntry` parses it from `cekStreamW`. -/
def vW : encryptionKeyInfo :=
  { encryptedKey := [], databaseID := 1, cekID := 2, cekVersion := 3,
    cekMdVersion := [0, 0, 0, 0, 0, 0, 0, 0], keyPath := [],
    keyStoreName := [], algorithmName := [] }

/-- The entry `readCekTableEntry` parses from `cekStreamW`. -/
def entryW : cekTableEntry :=
  { databaseID := 1, keyId := 2, keyVersion := 3,
    mdVersion := [0, 0, 0, 0, 0, 0, 0, 0], valueCount := 1,
    cekValues := [vW] }

/-- A concrete CEK-table-entry wire encoding: database id 1, cek id 2,
cek version 3, zero metadata version, one CEK value with empty blob and
names. -/
def cekStreamW : Bytes :=
  [1, 0, 0, 0, 2, 0, 0, 0, 3, 0, 0, 0, 0, 0, 0, 0, 0, 0, 0, 0,
   1, 0, 0, 0, 0, 0, 0]

/-- A concrete `readTypeInfo` instance that consumes no bytes. -/
def rtiW : Nat → Bytes → Option Bytes := fun _ t => some t

/-- A concrete crypto-metadata wire encoding: ordinal 0, user type 0,
type id 38, algorithm id 1 (not custom), encryption type 2,
normalization version 1. -/
def cmdStreamW : Bytes := [0, 0, 0, 0, 0, 0, 38, 1, 2, 1]

/-- The metadata `parseCryptoMetadata` produces from `cmdStreamW` against
the one-entry table `[entryW]`. -/
def mdW : cryptoMetadata :=
  { entry := some entryW, ordinal := 0, algorithmId := 1,
    algorithmName := none, encType := 2, normRuleVer := 1 }

/-- The FEDAUTHINFO wire input of the C2 failing case: size 20, count 1,
one option with id 1, length 14 and offset 4294967295, followed by the
7 data bytes the header arithmetic calls for. -/
def fedC2Stream : Bytes :=
  [20, 0, 0, 0, 1, 0, 0, 0, 1, 14, 0, 0, 0, 255, 255, 255, 255,
   0, 0, 0, 0, 0, 0, 0]

/-- The FEATUREEXTACK wire input of the C6 failing case: feature id 4
(COLUMNENCRYPTION) with declared length 3 and payload bytes 9, 1, 7,
followed by the terminator byte 255 and one further byte 255. -/
def featC6Stream : Bytes := [4, 3, 0, 0, 0, 9, 1, 7, 255, 255]

/-! # Theorems -/

theorem applyEnvRec_eq_delta (r : EnvRec) (σ : sessState) :
    applyEnvRec r σ = applyDelta (recDelta r) σ := by
  cases r <;> rfl

theorem ovr_getD {α : Type} (a b : Option α) (c : α) :
    (ovr a b).getD c = b.getD (a.getD c) := by
  cases b <;> rfl

theorem applyDelta_merge (d1 d2 : EnvDelta) (σ : sessState) :
    applyDelta (mergeDelta d1 d2) σ = applyDelta d2 (applyDelta d1 σ) := by
  simp [applyDelta, mergeDelta, ovr_getD]

theorem getD_getD {α : Type} (a : Option α) (c : α) :
    a.getD (a.getD c) = a.getD c := by
  cases a <;> rfl

theorem applyDelta_applyDelta (d : EnvDelta) (σ : sessState) :
    applyDelta d (applyDelta d σ) = applyDelta d σ := by
  simp [applyDelta, getD_getD]

theorem applyDelta_empty (σ : sessState) : applyDelta emptyDelta σ = σ := rfl

theorem envChgLoop_eq_delta (fuel : Nat) :
    ∀ s σ, envChgLoop fuel s σ =
      (envChgDelta fuel s).map (fun d => applyDelta d σ) := by
  induction fuel with
  | zero => intro s σ; rfl
  | succ fuel ih =>
    intro s σ
    cases s with
    | nil =>
      show some σ = some (applyDelta emptyDelta σ)
      rw [applyDelta_empty]
    | cons b s =>
      show (match parseEnvRecord (b :: s) with
            | none => none
            | some (EnvRec.unknownRec, _) => some σ
            | some (r, rest) => envChgLoop fuel rest (applyEnvRec r σ)) = _
      rcases hp : parseEnvRecord (b :: s) with _ | ⟨r, rest⟩
      · simp only [envChgDelta, hp]; rfl
      · cases r
        case unknownRec =>
          simp only [envChgDelta, hp]
          show some σ = some (applyDelta emptyDelta σ)
          rw [applyDelta_empty]

        all_goals
          simp only [envChgDelta, hp, ih, Option.map_map]
          refine congrArg (fun f => Option.map f (envChgDelta fuel rest)) ?_
          funext d
          simp only [Function.comp_apply, applyDelta_merge,
                     applyEnvRec_eq_delta]

/-- C7: ENVCHANGE application is idempotent.  For every ENVCHANGE byte
stream the decoder accepts without error, applying it a second time to the
resulting session state (database, tranid, partner, routedServer,
routedPort, packet buffer size) leaves that state unchanged — every
handled sub-record writes an absolute new value, not a delta. -/
theorem processEnvChg_idempotent (s : Bytes) (σ τ : sessState)
    (h : processEnvChg s σ = some τ) : processEnvChg s τ = some τ := by
  unfold processEnvChg at h ⊢
  rcases hu : readU16 s with _ | ⟨size, rest⟩
  · rw [hu] at h
    exact Option.noConfusion h
  · rw [hu] at h
    replace h : envChgLoop (size + 1) (rest.take size) σ = some τ := h
    show envChgLoop (size + 1) (rest.take size) τ = some τ
    rw [envChgLoop_eq_delta] at h ⊢
    rw [Option.map_eq_some'] at h
    obtain ⟨d, hd, hτ⟩ := h
    rw [hd]
    show some (applyDelta d τ) = some τ
    rw [← hτ, applyDelta_applyDelta]

/-- Witness for C7 at a concrete accepted ENVCHANGE stream (one database
record). -/
theorem processEnvChg_idempotent_witness :
    processEnvChg envW sess0 = some sess1 ∧
    processEnvChg envW sess1 = some sess1 :=
  ⟨by decide, processEnvChg_idempotent envW sess0 sess1 (by decide)⟩

theorem processSingleResponse_ne_nil (toks : List WireTok) (n : Nat) :
    processSingleResponse toks n ≠ [] := by
  induction toks generalizing n with
  | nil => exact List.cons_ne_nil _ _
  | cons t rest ih =>
    cases t with
    | sspi => exact List.cons_ne_nil _ _
    | fedauth => exact List.cons_ne_nil _ _
    | retstatus => exact List.cons_ne_nil _ _
    | loginack => exact List.cons_ne_nil _ _
    | featureextack => exact List.cons_ne_nil _ _
    | order => exact List.cons_ne_nil _ _
    | doneinproc st => exact List.cons_ne_nil _ _
    | done st =>
      simp only [processSingleResponse]
      split
      · exact List.cons_ne_nil _ _
      · exact List.cons_ne_nil _ _
    | colmeta m => exact List.cons_ne_nil _ _
    | rowTok => exact List.cons_ne_nil _ _
    | nbcrowTok => exact List.cons_ne_nil _ _
    | envchg ok =>
      cases ok with
      | false => exact List.cons_ne_nil _ _
      | true => exact ih n
    | errTok => exact ih n
    | infoTok => exact ih n
    | retval scanErr =>
      cases scanErr with
      | false => exact ih n
      | true => exact List.cons_ne_nil _ _
    | unknownTok => exact List.cons_ne_nil _ _
    | badTok => exact List.cons_ne_nil _ _

theorem noEarlyDoneClear_cons (e : Emit) (t : List Emit) (ht : t ≠ []) :
    noEarlyDoneClear (e :: t) = (!isDoneClearE e && noEarlyDoneClear t) := by
  cases t with
  | nil => exact absurd rfl ht
  | cons x xs => rfl

theorem lastTerminal_cons (e : Emit) (t : List Emit) (ht : t ≠ []) :
    lastTerminal (e :: t) = lastTerminal t := by
  cases t with
  | nil => exact absurd rfl ht
  | cons x xs => rfl

theorem terminator_step (e : Emit) (t : List Emit) (ht : t ≠ [])
    (he : isDoneClearE e = false)
    (h : noEarlyDoneClear t = true ∧ lastTerminal t = true) :
    noEarlyDoneClear (e :: t) = true ∧ lastTerminal (e :: t) = true := by
  rw [noEarlyDoneClear_cons e t ht, lastTerminal_cons e t ht, he]
  exact ⟨by rw [h.1]; rfl, h.2⟩

/-- C5: a `Done` with the MORE bit clear is the single terminator — in every
trace `processSingleResponse` emits, no such `Done` occurs before the final
emission, and the final emission is a `Done`, an `SspiMsg`, a
`FedAuthInfo`, or an error value. -/
theorem processSingleResponse_terminator (toks : List WireTok) (n : Nat) :
    noEarlyDoneClear (processSingleResponse toks n) = true ∧
    lastTerminal (processSingleResponse toks n) = true := by
  induction toks generalizing n with
  | nil => exact ⟨rfl, rfl⟩
  | cons t rest ih =>
    cases t with
    | sspi => exact ⟨rfl, rfl⟩
    | fedauth => exact ⟨rfl, rfl⟩
    | retstatus =>
      exact terminator_step _ _ (processSingleResponse_ne_nil rest n)
        rfl (ih n)
    | loginack =>
      exact terminator_step _ _ (processSingleResponse_ne_nil rest n)
        rfl (ih n)
    | featureextack =>
      exact terminator_step _ _ (processSingleResponse_ne_nil rest n)
        rfl (ih n)
    | order =>
      exact terminator_step _ _ (processSingleResponse_ne_nil rest n)
        rfl (ih n)
    | doneinproc st =>
      exact terminator_step _ _ (processSingleResponse_ne_nil rest n)
        rfl (ih n)
    | done st =>
      simp only [processSingleResponse]
      by_cases hsrv : st &&& doneSrvError ≠ 0
      · rw [if_pos hsrv]; exact ⟨rfl, rfl⟩
      · rw [if_neg hsrv]
        by_cases hm : st &&& doneMore = 0
        · rw [if_pos hm]; exact ⟨rfl, rfl⟩
        · rw [if_neg hm]
          refine terminator_step _ _ (processSingleResponse_ne_nil rest n)
            ?_ (ih n)
          simp only [isDoneClearE, beq_eq_false_iff_ne, ne_eq]
          exact hm
    | colmeta m =>
      exact terminator_step _ _ (processSingleResponse_ne_nil rest m)
        rfl (ih m)
    | rowTok =>
      exact terminator_step _ _ (processSingleResponse_ne_nil rest n)
        rfl (ih n)
    | nbcrowTok =>
      exact terminator_step _ _ (processSingleResponse_ne_nil rest n)
        rfl (ih n)
    | envchg ok =>
      cases ok with
      | false => exact ⟨rfl, rfl⟩
      | true => exact ih n
    | errTok => exact ih n
    | infoTok => exact ih n
    | retval scanErr =>
      cases scanErr with
      | false => exact ih n
      | true =>
        exact terminator_step _ _ (processSingleResponse_ne_nil rest n)
          rfl (ih n)
    | unknownTok => exact ⟨rfl, rfl⟩
    | badTok => exact ⟨rfl, rfl⟩

/-- C9: a ROW or NBCROW arriving before any COLMETADATA is decoded against
the empty column list (the loop starts with nil columns): no `BadStream`,
a row of length 0 is emitted, and NBCROW reads zero bitmap bytes (for zero
columns the bitmap length `(0+7)/8` is `0`, so the stream is untouched). -/
theorem row_before_colmetadata (ae : Bool) (dec : DecryptFun) (s : Bytes)
    (rest : List WireTok) :
    parseRow ae dec [] s = some ([], s) ∧
    parseNbcRow ae dec [] s = some ([], s) ∧
    processSingleResponse (WireTok.rowTok :: rest) 0 =
      Emit.rowE 0 :: processSingleResponse rest 0 ∧
    processSingleResponse (WireTok.nbcrowTok :: rest) 0 =
      Emit.rowE 0 :: processSingleResponse rest 0 :=
  ⟨rfl, by simp [parseNbcRow, readN, nbcLoop], rfl, rfl⟩

/-- C8: the consumer's non-blocking dequeue runs before any wait on the
cancellation signal, so whenever at least one value is buffered on the
token channel the returned value is that token (or error value), never the
cancellation path — whatever the state of the context. -/
theorem nextToken_priority (item : ChanItem) (rest : List ChanItem)
    (closed ctxDone : Bool) :
    nextToken (item :: rest) closed ctxDone ≠ NextTokenRes.cancelPath ∧
    nextToken (item :: rest) closed ctxDone =
      nextToken (item :: rest) closed false := by
  cases item with
  | tokItem v => exact ⟨fun h => NextTokenRes.noConfusion h, rfl⟩
  | errItem e => exact ⟨fun h => NextTokenRes.noConfusion h, rfl⟩

/-- C10: in `parseRow`, a column whose cell reader returns null stores null
and the decryption path is never entered, even for an encrypted column with
Always Encrypted enabled — the per-column result does not depend on the
decryption pipeline at all. -/
theorem parseRow_null_skips_decryption (ae : Bool)
    (dec1 dec2 : DecryptFun) (c : colM) (s s1 : Bytes)
    (h : c.reader s = some ((none : Cell), s1)) :
    rowStep ae dec1 c s = some ((none : Cell), s1) ∧
    rowStep ae dec1 c s = rowStep ae dec2 c s ∧
    parseRow ae dec1 [c] s = some ([(none : Cell)], s1) := by
  have h1 : rowStep ae dec1 c s = some ((none : Cell), s1) := by
    simp [rowStep, h]
  have h2 : rowStep ae dec2 c s = some ((none : Cell), s1) := by
    simp [rowStep, h]
  refine ⟨h1, h1.trans h2.symm, ?_⟩
  simp [parseRow, h1]

/-- Witness for C10 at a concrete encrypted column whose reader yields
null, under two different decryption pipelines. -/
theorem parseRow_null_skips_decryption_witness :
    rowStep true decCex colCex [5] = some ((none : Cell), [5]) ∧
    rowStep true decCex colCex [5] = rowStep true decCex2 colCex [5] ∧
    parseRow true decCex [colCex] [5] = some ([(none : Cell)], [5]) :=
  parseRow_null_skips_decryption true decCex decCex2 colCex [5] [5] rfl

theorem parseRow_length (ae : Bool) (dec : DecryptFun) :
    ∀ (cols : List colM) (s : Bytes) row s2,
      parseRow ae dec cols s = some (row, s2) → row.length = cols.length := by
  intro cols
  induction cols with
  | nil =>
    intro s row s2 h
    injection h with h
    injection h with h1 h2
    rw [← h1]
    rfl
  | cons c cs ih =>
    intro s row s2 h
    simp only [parseRow, Option.bind_eq_bind, Option.bind_eq_some] at h
    obtain ⟨⟨cell, s1⟩, hs, h⟩ := h
    obtain ⟨⟨row1, s3⟩, hr, h⟩ := h
    injection h with h
    injection h with h1 h2
    rw [← h1]
    simp [ih s1 row1 s3 hr]

theorem nbcLoop_length (ae : Bool) (dec : DecryptFun) (bm : Bytes) :
    ∀ (cols : List colM) (i : Nat) (s : Bytes) row s2,
      nbcLoop ae dec bm i cols s = some (row, s2) →
      row.length = cols.length := by
  intro cols
  induction cols with
  | nil =>
    intro i s row s2 h
    injection h with h
    injection h with h1 h2
    rw [← h1]
    rfl
  | cons c cs ih =>
    intro i s row s2 h
    simp only [nbcLoop] at h
    by_cases hb : nbcBit bm i
    · rw [if_pos hb] at h
      simp only [Option.bind_eq_bind, Option.bind_eq_some] at h
      obtain ⟨⟨row1, s3⟩, hr, h⟩ := h
      injection h with h
      injection h with h1 h2
      rw [← h1]
      simp [ih (i + 1) s row1 s3 hr]
    · rw [if_neg hb] at h
      simp only [Option.bind_eq_bind, Option.bind_eq_some] at h
      obtain ⟨⟨cell, s1⟩, hs, h⟩ := h
      obtain ⟨⟨row1, s3⟩, hr, h⟩ := h
      injection h with h
      injection h with h1 h2
      rw [← h1]
      simp [ih (i + 1) s1 row1 s3 hr]

/-- C4 (amended): rows have one cell per column of the most recent
COLMETADATA; NBCROW first reads `(columns+7)/8` bitmap bytes; a set bit
stores null and consumes no cell bytes for that column; an unset bit is
decoded as in ROW for a non-null cell or a non-encrypted column — but
NBCROW lacks ROW's null short-circuit, so a null cell of an encrypted
column enters the decryption path instead (see
`parseNbcRow_counterexample`). -/
theorem parseNbcRow_contract :
    (∀ (ae : Bool) (dec : DecryptFun) cols s row s2,
        parseRow ae dec cols s = some (row, s2) →
        row.length = cols.length) ∧
    (∀ (ae : Bool) (dec : DecryptFun) cols s row s2,
        parseNbcRow ae dec cols s = some (row, s2) →
        row.length = cols.length) ∧
    (∀ (ae : Bool) (dec : DecryptFun) cols s r,
        parseNbcRow ae dec cols s = some r →
        (cols.length + 7) / 8 ≤ s.length) ∧
    (∀ (ae : Bool) (dec : DecryptFun) bm i c cs s, nbcBit bm i = true →
        nbcLoop ae dec bm i (c :: cs) s =
          (nbcLoop ae dec bm (i + 1) cs s).map
            (fun p => ((none : Cell) :: p.1, p.2))) ∧
    (∀ (ae : Bool) (dec : DecryptFun) (c : colM) s,
        (c.enc && ae) = false → nbcStep ae dec c s = rowStep ae dec c s) ∧
    (∀ (ae : Bool) (dec : DecryptFun) (c : colM) s b s1,
        c.reader s = some (some b, s1) →
        nbcStep ae dec c s = rowStep ae dec c s) := by
  refine ⟨parseRow_length, ?_, ?_, ?_, ?_, ?_⟩
  · intro ae dec cols s row s2 h
    simp only [parseNbcRow] at h
    rcases hb : readN ((cols.length + 7) / 8) s with _ | ⟨bm, s1⟩ <;>
      rw [hb] at h
    · exact Option.noConfusion h
    · exact nbcLoop_length ae dec bm cols 0 s1 row s2 h
  · intro ae dec cols s r h
    simp only [parseNbcRow] at h
    rcases hb : readN ((cols.length + 7) / 8) s with _ | ⟨bm, s1⟩ <;>
      rw [hb] at h
    · exact Option.noConfusion h
    · simp only [readN] at hb
      by_cases hle : (cols.length + 7) / 8 ≤ s.length
      · exact hle
      · rw [if_neg hle] at hb
        exact Option.noConfusion hb
  · intro ae dec bm i c cs s hb
    simp only [nbcLoop, if_pos hb]
    rcases hr : nbcLoop ae dec bm (i + 1) cs s with _ | ⟨row1, s3⟩ <;> rfl
  · intro ae dec c s hfalse
    simp only [nbcStep, rowStep, hfalse]
    rcases hr : c.reader s with _ | ⟨content, s1⟩
    · rfl
    · cases content <;> simp
  · intro ae dec c s b s1 h
    simp only [nbcStep, rowStep, h]

/-- C4 counterexample to the claim as stated: an encrypted column (Always
Encrypted on) whose cell reader yields null.  With an unset bitmap bit
NBCROW aborts in the decryption path, while ROW stores the null — the
unset bit is not decoded as in ROW. -/
theorem parseNbcRow_counterexample :
    parseNbcRow true decCex [colCex] [0] = none ∧
    parseRow true decCex [colCex] [] = some ([(none : Cell)], []) :=
  ⟨rfl, rfl⟩

/-- Witness for C4: concrete instantiations of each conjunct of
`parseNbcRow_contract` — a one-column ROW and NBCROW, a set bitmap bit, and
the unset-bit/ROW agreement for a plaintext column and for a non-null
cell. -/
theorem parseNbcRow_contract_witness :
    ([some [9]] : List Cell).length = [colPlain].length ∧
    ([(none : Cell)] : List Cell).length = [colPlain].length ∧
    ([colPlain].length + 7) / 8 ≤ ([1, 9] : Bytes).length ∧
    nbcLoop true decCex [1] 0 [colPlain] [9] =
      (nbcLoop true decCex [1] 1 [] [9]).map
        (fun p => ((none : Cell) :: p.1, p.2)) ∧
    nbcStep false decCex colPlain [9] = rowStep false decCex colPlain [9] ∧
    nbcStep true decCex colPlain [9] = rowStep true decCex colPlain [9] :=
  ⟨parseNbcRow_contract.1 false decCex [colPlain] [9] [some [9]] [] rfl,
   parseNbcRow_contract.2.1 false decCex [colPlain] [1, 9]
     [(none : Cell)] [9] rfl,
   parseNbcRow_contract.2.2.1 false decCex [colPlain] [1, 9]
     ([(none : Cell)], [9]) rfl,
   parseNbcRow_contract.2.2.2.1 true decCex [1] 0 colPlain [] [9] rfl,
   parseNbcRow_contract.2.2.2.2.1 false decCex colPlain [9] rfl,
   parseNbcRow_contract.2.2.2.2.2 true decCex colPlain [9] [9] [] rfl⟩

theorem readCekValues_version (dbid cekid ver : Nat) (md : Bytes) :
    ∀ (n : Nat) (s : Bytes) vals t,
      readCekValues dbid cekid ver md n s = some (vals, t) →
      ∀ v ∈ vals, v.cekVersion = ver := by
  intro n
  induction n with
  | zero =>
    intro s vals t h v hv
    injection h with h
    injection h with h1 h2
    rw [← h1] at hv
    exact absurd hv (List.not_mem_nil v)
  | succ n ih =>
    intro s vals t h v hv
    simp only [readCekValues, Option.bind_eq_bind, Option.bind_eq_some] at h
    obtain ⟨⟨ekLen, s1⟩, _, h⟩ := h
    obtain ⟨⟨ek, s2⟩, _, h⟩ := h
    obtain ⟨⟨ksLen, s3⟩, _, h⟩ := h
    obtain ⟨⟨ksu, s4⟩, _, h⟩ := h
    obtain ⟨⟨kpLen, s5⟩, _, h⟩ := h
    obtain ⟨⟨kpu, s6⟩, _, h⟩ := h
    obtain ⟨⟨algLen, s7⟩, _, h⟩ := h
    obtain ⟨⟨algu, s8⟩, _, h⟩ := h
    obtain ⟨⟨rest, s9⟩, hrest, h⟩ := h
    injection h with h
    injection h with h1 h2
    rw [← h1] at hv
    rcases List.mem_cons.mp hv with hv | hv
    · rw [hv]
    · exact ih s8 rest s9 hrest v hv

/-- C1 (amended): `decryptColumn` takes the encrypted-CEK blob it parses
and verifies from the first CEK value (index 0) of the column's entry, but
the AEAD algorithm version from the CEK value at index `ordinal` — the
CEK-table ordinal reused as a value index.  When `ordinal` is at least the
entry's value count that indexing panics instead of selecting anything;
when it is in bounds, the version coincides with the first value's for
entries parsed off the wire, because `readCekTableEntry` gives every CEK
value of an entry the same entry-level version. -/
theorem decryptColumn_cek_selection :
    (∀ (cm : cryptoMetadata) (entry : cekTableEntry),
        cm.entry = some entry → entry.cekValues.length ≤ cm.ordinal →
        decryptColumnSelect cm = none) ∧
    (∀ (cm : cryptoMetadata) (entry : cekTableEntry)
        (v0 v : encryptionKeyInfo), cm.entry = some entry →
        entry.cekValues[0]? = some v0 →
        entry.cekValues[cm.ordinal]? = some v →
        decryptColumnSelect cm = some (v0.encryptedKey, v.cekVersion)) ∧
    (∀ s e t, readCekTableEntry s = some (e, t) →
        ∀ v ∈ e.cekValues, v.cekVersion = e.keyVersion) := by
  refine ⟨?_, ?_, ?_⟩
  · intro cm entry h hlen
    simp [decryptColumnSelect, h, List.getElem?_eq_none hlen]
  · intro cm entry v0 v h h0 hv
    simp [decryptColumnSelect, h, h0, hv]
  · intro s e t h v hv
    simp only [readCekTableEntry, Option.bind_eq_bind,
               Option.bind_eq_some] at h
    obtain ⟨⟨dbid, s1⟩, _, h⟩ := h
    obtain ⟨⟨cekid, s2⟩, _, h⟩ := h
    obtain ⟨⟨ver, s3⟩, _, h⟩ := h
    obtain ⟨⟨md, s4⟩, _, h⟩ := h
    obtain ⟨⟨cnt, s5⟩, _, h⟩ := h
    obtain ⟨⟨vals, s6⟩, hvals, h⟩ := h
    injection h with h
    injection h with h1 h2
    rw [← h1] at hv ⊢
    exact readCekValues_version dbid cekid ver md cnt s5 vals s6 hvals v hv

/-- C1 counterexample to the claim as stated: crypto metadata whose entry
holds a single CEK value but whose ordinal is 1 (a two-entry CEK table
whose second entry has one value).  `decryptColumn` panics indexing
`cekValues[1]` for the algorithm version instead of selecting the first
CEK value for everything. -/
theorem decryptColumn_counterexample :
    cmCex.entry = some entryCex ∧
    entryCex.cekValues[0]? = some v0Cex ∧
    decryptColumnSelect cmCex = none :=
  ⟨rfl, rfl, by decide⟩

/-- Witness for C1: the out-of-bounds panic case, the in-bounds selection
at ordinal 0, and the entry-level version sharing on a concretely parsed
CEK-table entry. -/
theorem decryptColumn_cek_selection_witness :
    decryptColumnSelect cmCex = none ∧
    decryptColumnSelect cmW = some (v0Cex.encryptedKey, v0Cex.cekVersion) ∧
    vW.cekVersion = entryW.keyVersion :=
  ⟨decryptColumn_cek_selection.1 cmCex entryCex rfl (by decide),
   decryptColumn_cek_selection.2.1 cmW entryCex v0Cex v0Cex rfl rfl rfl,
   decryptColumn_cek_selection.2.2 cekStreamW entryW [] (by decide)
     vW (by decide)⟩

theorem parseCryptoMetadata_some (entries : List cekTableEntry)
    (rti : Nat → Bytes → Option Bytes) (s : Bytes)
    (md : cryptoMetadata) (t : Bytes)
    (h : parseCryptoMetadata (some entries) rti s = some (md, t)) :
    md.ordinal < entries.length ∧ md.entry = entries[md.ordinal]? ∧
    ∃ s1, readU16 s = some (md.ordinal, s1) := by
  simp only [parseCryptoMetadata, Option.bind_eq_bind,
             Option.bind_eq_some] at h
  obtain ⟨⟨ordinal, s1⟩, hu, h⟩ := h
  obtain ⟨⟨userType, s2⟩, _, h⟩ := h
  obtain ⟨⟨typeId, s3⟩, _, h⟩ := h
  obtain ⟨s4, _, h⟩ := h
  obtain ⟨⟨algorithmId, s5⟩, _, h⟩ := h
  obtain ⟨⟨algName, s6⟩, _, h⟩ := h
  obtain ⟨⟨encType, s7⟩, _, h⟩ := h
  obtain ⟨⟨normRuleVer, s8⟩, _, h⟩ := h
  obtain ⟨entry, hentry, h⟩ := h
  simp only [resolveCekEntry] at hentry
  by_cases hc : (entries.length : Int) - 1 < (ordinal : Int)
  · rw [if_pos hc] at hentry
    exact Option.noConfusion hentry
  · rw [if_neg hc] at hentry
    injection hentry with hentry
    injection h with h
    injection h with h1 h2
    rw [← h1]
    have hord : ordinal < entries.length := by omega
    exact ⟨hord, hentry.symm, s1, hu⟩

/-- C3: with a CEK table present, `parseCryptoMetadata` resolves the entry
only after the bounds check.  Every successful parse yields metadata with
`ordinal < len(CEKTable)` referencing exactly the entry at that ordinal,
and every stream whose leading `uint16` ordinal is out of bounds fails
(the `badStreamPanic`-style abort). -/
theorem parseCryptoMetadata_ordinal_check :
    (∀ entries rti s md t,
        parseCryptoMetadata (some entries) rti s = some (md, t) →
        md.ordinal < entries.length ∧
        md.entry = entries[md.ordinal]?) ∧
    (∀ (entries : List cekTableEntry) rti s o s1,
        readU16 s = some (o, s1) → entries.length ≤ o →
        parseCryptoMetadata (some entries) rti s = none) := by
  constructor
  · intro entries rti s md t h
    exact ⟨(parseCryptoMetadata_some entries rti s md t h).1,
           (parseCryptoMetadata_some entries rti s md t h).2.1⟩
  · intro entries rti s o s1 hu hlen
    rcases hq : parseCryptoMetadata (some entries) rti s with _ | ⟨md, t⟩
    · rfl
    · exfalso
      obtain ⟨hlt, _, s1x, hu2⟩ :=
        parseCryptoMetadata_some entries rti s md t hq
      rw [hu] at hu2
      injection hu2 with hu2
      injection hu2 with h1 h2
      omega

/-- Witness for C3: a successful parse against a one-entry table resolves
entry 0, and the same stream against an empty table fails the bounds
check. -/
theorem parseCryptoMetadata_ordinal_check_witness :
    (mdW.ordinal < [entryW].length ∧
      mdW.entry = [entryW][mdW.ordinal]?) ∧
    parseCryptoMetadata (some []) rtiW cmdStreamW = none :=
  ⟨parseCryptoMetadata_ordinal_check.1 [entryW] rtiW cmdStreamW mdW []
     (by decide),
   parseCryptoMetadata_ordinal_check.2 [] rtiW cmdStreamW 0
     [0, 0, 0, 0, 38, 1, 2, 1] (by decide) (by decide)⟩

/-- C2 (code bug): on `fedC2Stream` both wire-validation checks of
`parseFedAuthInfo` pass — offset 4294967295 is not below the header size
13, and 4294967295 + 14 wraps to 13 in `uint32`, not above size 20 — yet
the slice bounds `data[4294967282:0]` are out of range for the 7-byte data
blob, a Go runtime panic rather than the `BadStream` the claim requires. -/
theorem parseFedAuthInfo_oob_eval :
    parseFedAuthInfo fedC2Stream = FedOutcome.sliceOOR := by decide

/-- C6 (code bug): on `featC6Stream` the COLUMNENCRYPTION feature declares
3 bytes (version 9, enclave-type length 1, one enclave byte 7), but the
decoder fails to count the enclave-type length byte against the declared
length, consumes 4 bytes, swallows the terminator byte 255 as padding, and
instead takes the following byte as the terminator — returning an empty
remainder where a decoder consuming exactly the declared bytes would stop
at the first 255 and leave `[255]`. -/
theorem parseFeatureExtAck_eval :
    parseFeatureExtAck featC6Stream = some [] := by decide

end GoMssql
